import Mathlib

/-
  Verification development for the CureZa research-assistant repository.

  The development shallowly embeds the hard core of the code base:
  the in-memory research data store (src/src/lib/researchDataStore.ts),
  the RAG relevance scorer and section extractor (src/src/lib/ragService.ts)
  and the PDF text-extraction edge function (src/unnamed/part_000,
  action download_pdf).

  Strings are modelled as `List Char`; JS numbers occurring in score
  arithmetic are modelled as rationals (`ℚ`); the JS value NaN, which can
  only arise in `validateHypothesisAgainstSources` through the division
  0 / 0, is modelled by `Option ℚ` with `none` standing for NaN.
  JS `Map` objects are modelled as association lists with `Map.set` /
  `Map.get` / `Map.has` semantics.
-/

namespace CureZa

/-- Characters of a string literal, the basic text model. -/
def chars (s : String) : List Char := s.toList

/-- JS regex class `\s` restricted to the Latin-1 range (the only characters
that can occur in latin1-decoded buffers): tab, LF, VT, FF, CR, space, NBSP. -/
def isWs (c : Char) : Bool :=
  c = ' ' || c = '\t' || c = '\n' || c = '\r' ||
  c = Char.ofNat 11 || c = Char.ofNat 12 || c = Char.ofNat 160

/-- Word characters, JS regex class `\w` = `[A-Za-z0-9_]`. -/
def isWordChar (c : Char) : Bool :=
  (97 ≤ c.toNat && c.toNat ≤ 122) || (65 ≤ c.toNat && c.toNat ≤ 90) ||
  (48 ≤ c.toNat && c.toNat ≤ 57) || c = '_'

/-- ASCII letters, JS regex class `[a-zA-Z]`. -/
def isAlphaB (c : Char) : Bool :=
  (97 ≤ c.toNat && c.toNat ≤ 122) || (65 ≤ c.toNat && c.toNat ≤ 90)

/-- ASCII digits, JS regex class `\d` = `[0-9]`. -/
def isDigitB (c : Char) : Bool := 48 ≤ c.toNat && c.toNat ≤ 57

/-- ASCII lowercase letters, JS regex class `[a-z]`. -/
def isLowerB (c : Char) : Bool := 97 ≤ c.toNat && c.toNat ≤ 122

/-- ASCII uppercase letters, JS regex class `[A-Z]`. -/
def isUpperB (c : Char) : Bool := 65 ≤ c.toNat && c.toNat ≤ 90

/-- JS `String.prototype.toLowerCase` on the character range we model. -/
def toLower (s : List Char) : List Char := s.map Char.toLower

/-- Bound on `List.dropWhile`, needed for termination of the scanners. -/
theorem length_dropWhile_le (p : Char → Bool) (l : List Char) :
    (l.dropWhile p).length ≤ l.length := by
  induction l with
  | nil => simp [List.dropWhile]
  | cons a t ih =>
    by_cases h : p a
    · simp only [List.dropWhile, h]
      exact Nat.le_succ_of_le ih
    · simp [List.dropWhile, h]

/-- Does `pre` occur as a prefix of `s`? -/
def prefixOf : List Char → List Char → Bool
  | [], _ => true
  | _ :: _, [] => false
  | a :: as, b :: bs => a = b && prefixOf as bs

/-- JS `String.prototype.includes`: does `needle` occur as a contiguous
substring of `hay`?  (`"".includes` of the empty needle is `true`.) -/
def subOf : List Char → List Char → Bool
  | needle, [] => needle.isEmpty
  | needle, c :: t => prefixOf needle (c :: t) || subOf needle t

/-- Index of the first occurrence of `needle` in `s`, if any. -/
def firstIdx (needle : List Char) : List Char → Option Nat
  | [] => if needle.isEmpty then some 0 else none
  | c :: t =>
    if prefixOf needle (c :: t) then some 0
    else (firstIdx needle t).map (· + 1)

/-- Worker for JS `str.split(/SEP+/)` where `SEP` is a character class:
split on maximal runs of separator characters, keeping the empty fragments
produced by leading or trailing separators.  `inRun` records that the
scanner is inside a separator run (and so owes one more fragment at the
end); `acc` is the current fragment, reversed. -/
def splitGo (p : Char → Bool) : List Char → Bool → List Char → List (List Char)
  | [], inRun, acc => if inRun then [[]] else [acc.reverse]
  | c :: cs, inRun, acc =>
    if inRun then
      if p c then splitGo p cs true []
      else splitGo p cs false [c]
    else
      if p c then acc.reverse :: splitGo p cs true []
      else splitGo p cs false (c :: acc)

/-- JS `str.split(/\s+/)`. -/
def splitWs (s : List Char) : List (List Char) := splitGo isWs s false []

/-- JS `Array.prototype.join` with a separator. -/
def joinSep (sep : List Char) : List (List Char) → List Char
  | [] => []
  | [x] => x
  | x :: xs => x ++ sep ++ joinSep sep xs

/-! ## JS `Map` model: association lists with `set` / `get` / `has` semantics -/

/-- JS `Map.prototype.set`: update the value at an existing key in place,
otherwise append the binding at the end. -/
def mapSet {κ ν : Type} [DecidableEq κ] : List (κ × ν) → κ → ν → List (κ × ν)
  | [], k, v => [(k, v)]
  | (k', v') :: rest, k, v =>
    if k' = k then (k, v) :: rest else (k', v') :: mapSet rest k v

/-- JS `Map.prototype.get`. -/
def mapGet {κ ν : Type} [DecidableEq κ] : List (κ × ν) → κ → Option ν
  | [], _ => none
  | (k', v') :: rest, k => if k' = k then some v' else mapGet rest k

/-- JS `Map.prototype.has`. -/
def mapHas {κ ν : Type} [DecidableEq κ] (m : List (κ × ν)) (k : κ) : Bool :=
  (mapGet m k).isSome

/-! ## Data model of src/src/lib/researchDataStore.ts -/

/-- Interface `SourcePaper` (researchDataStore.ts lines 2-10). -/
structure SourcePaper where
  id : List Char
  title : List Char
  authors : List (List Char)
  url : List Char
  extractedText : List Char
  relevantSections : List (List Char)
  citationStyle : List Char
deriving DecidableEq

/-- Status union of `HypothesisWithSources`. -/
inductive HypStatus where
  | draft | testing | validated | rejected
deriving DecidableEq

/-- One entry of `extractedEvidence` (researchDataStore.ts lines 19-24).
The source field named `section` is rendered here as `sect`. -/
structure EvidenceItem where
  paperId : List Char
  evidenceText : List Char
  pageNumber : Option Nat := none
  sect : List Char
deriving DecidableEq

/-- Interface `HypothesisWithSources` (researchDataStore.ts lines 12-29). -/
structure HypothesisWithSources where
  id : List Char
  title : List Char
  description : List Char
  status : HypStatus
  confidence : ℚ
  sourcePapers : List SourcePaper
  extractedEvidence : List EvidenceItem
  tags : List (List Char)
  createdAt : List Char
  updatedAt : List Char
  knowledgeGraphNodeId : Option (List Char) := none
deriving DecidableEq

/-- Argument type of `addHypothesis`:
`Omit<HypothesisWithSources, 'knowledgeGraphNodeId'>`. -/
structure HypothesisInput where
  id : List Char
  title : List Char
  description : List Char
  status : HypStatus
  confidence : ℚ
  sourcePapers : List SourcePaper
  extractedEvidence : List EvidenceItem
  tags : List (List Char)
  createdAt : List Char
  updatedAt : List Char
deriving DecidableEq

/-- Node type union of `KnowledgeGraphNode`. -/
inductive NodeType where
  | paper | hypothesis | concept | evidence | author
deriving DecidableEq

/-- Source type union of `KnowledgeGraphNode`. -/
inductive NodeSourceType where
  | pdf_extracted | user_generated | paper_metadata
deriving DecidableEq

/-- Metadata record of `KnowledgeGraphNode` (researchDataStore.ts lines 37-47);
absent optional JS fields are `none`.  The source field named `section`
is rendered here as `sect`. -/
structure NodeMetadata where
  sourcePapers : Option (List (List Char)) := none
  confidence : Option ℚ := none
  extractedFrom : Option (List Char) := none
  pageReferences : Option (List Nat) := none
  sect : Option (List Char) := none
  description : Option (List Char) := none
  field : Option (List Char) := none
  year : Option Nat := none
  citations : Option Nat := none
deriving DecidableEq

/-- Interface `KnowledgeGraphNode` (researchDataStore.ts lines 31-50);
the optional display `position` carries no behaviour and is omitted. -/
structure KnowledgeGraphNode where
  id : List Char
  label : List Char
  type : NodeType
  sourceType : NodeSourceType
  importance : ℚ
  metadata : NodeMetadata
  connections : List (List Char)
deriving DecidableEq

/-- Connection type union of `GraphConnection`. -/
inductive ConnType where
  | supports | contradicts | relates_to | derived_from | cites
deriving DecidableEq

/-- One entry of a connection evidence list (researchDataStore.ts lines 57-61). -/
structure ConnEvidence where
  paperId : List Char
  evidenceText : List Char
  confidence : ℚ
deriving DecidableEq

/-- Interface `GraphConnection` (researchDataStore.ts lines 52-62). -/
structure GraphConnection where
  sourceId : List Char
  targetId : List Char
  type : ConnType
  weight : ℚ
  evidence : List ConnEvidence
deriving DecidableEq

/-- The four private maps of class `ResearchDataStore`
(researchDataStore.ts lines 64-69). -/
structure ResearchDataStore where
  hypotheses : List (List Char × HypothesisWithSources) := []
  papers : List (List Char × SourcePaper) := []
  knowledgeGraph : List (List Char × KnowledgeGraphNode) := []
  connections : List (List Char × GraphConnection) := []
deriving DecidableEq

/-- The fresh store created by `getInstance`. -/
def emptyStore : ResearchDataStore := {}

/-! ## Store operations -/

/-- `ResearchDataStore.addPaper` (researchDataStore.ts lines 79-96): insert or
overwrite the paper by id and unconditionally create/overwrite its knowledge
graph node of type `paper` with empty `connections`. -/
def addPaper (st : ResearchDataStore) (paper : SourcePaper) : ResearchDataStore :=
  let paperNode : KnowledgeGraphNode :=
    { id := chars "paper_" ++ paper.id
      label := paper.title
      type := NodeType.paper
      sourceType := NodeSourceType.paper_metadata
      importance := 8 / 10
      metadata := { description := some (chars "Research paper: " ++ paper.title)
                    sourcePapers := some [paper.id] }
      connections := [] }
  { st with papers := mapSet st.papers paper.id paper
            knowledgeGraph := mapSet st.knowledgeGraph paperNode.id paperNode }

/-- Append `cid` to the `connections` of the node stored under `target`
(a JS in-place `connections.push(cid)` on the aliased node object); a no-op
when no node is stored under `target`. -/
def pushConn (g : List (List Char × KnowledgeGraphNode)) (target cid : List Char) :
    List (List Char × KnowledgeGraphNode) :=
  match mapGet g target with
  | some node => mapSet g target { node with connections := node.connections ++ [cid] }
  | none => g

/-- One iteration of the `hypothesis.sourcePapers.forEach` loop of
`addHypothesis` (researchDataStore.ts lines 140-166): create the
`derived_from` connection, push the paper node id onto the hypothesis
node (which always exists, having just been set) and, if the paper node
exists, push the hypothesis node id onto it.  In the JS code the hypothesis
node object is aliased by the map, so its in-place `push` is modelled by
updating the map entry. -/
def addHypothesisStep (h : HypothesisInput) (nodeId : List Char)
    (st : ResearchDataStore) (paper : SourcePaper) : ResearchDataStore :=
  let paperNodeId := chars "paper_" ++ paper.id
  let connectionId := nodeId ++ chars "_to_" ++ paperNodeId
  let connection : GraphConnection :=
    { sourceId := nodeId
      targetId := paperNodeId
      type := ConnType.derived_from
      weight := 8 / 10
      evidence := (h.extractedEvidence.filter (fun ev => ev.paperId = paper.id)).map
        (fun ev => { paperId := paper.id
                     evidenceText := ev.evidenceText
                     confidence := h.confidence / 100 }) }
  let st1 := { st with connections := mapSet st.connections connectionId connection }
  let st2 := { st1 with knowledgeGraph := pushConn st1.knowledgeGraph nodeId paperNodeId }
  { st2 with knowledgeGraph := pushConn st2.knowledgeGraph paperNodeId nodeId }

/-- `ResearchDataStore.addHypothesis` (researchDataStore.ts lines 107-169).
A thrown `Error` is modelled by `Except.error` carrying the message; the
second component is the store after the call (unchanged when the validation
throws, since the throw happens before any mutation). -/
def addHypothesis (st : ResearchDataStore) (h : HypothesisInput) :
    Except (List Char) HypothesisWithSources × ResearchDataStore :=
  let missingPapers := h.sourcePapers.filter (fun p => ¬ mapHas st.papers p.id)
  if 0 < missingPapers.length then
    (Except.error (chars "Missing source papers: " ++
        joinSep (chars ", ") (missingPapers.map (fun p => p.id))), st)
  else
    let nodeId := chars "hypothesis_" ++ h.id
    let hypothesisNode : KnowledgeGraphNode :=
      { id := nodeId
        label := h.title
        type := NodeType.hypothesis
        sourceType := NodeSourceType.pdf_extracted
        importance := h.confidence / 100
        metadata := { sourcePapers := some (h.sourcePapers.map (fun p => p.id))
                      confidence := some h.confidence
                      description := some h.description }
        connections := [] }
    let fullHypothesis : HypothesisWithSources :=
      { id := h.id, title := h.title, description := h.description
        status := h.status, confidence := h.confidence
        sourcePapers := h.sourcePapers, extractedEvidence := h.extractedEvidence
        tags := h.tags, createdAt := h.createdAt, updatedAt := h.updatedAt
        knowledgeGraphNodeId := some nodeId }
    let st1 := { st with hypotheses := mapSet st.hypotheses h.id fullHypothesis
                         knowledgeGraph := mapSet st.knowledgeGraph nodeId hypothesisNode }
    (Except.ok fullHypothesis, h.sourcePapers.foldl (addHypothesisStep h nodeId) st1)

/-- `ResearchDataStore.updateHypothesisStatus` (researchDataStore.ts lines
245-262); `now` stands for `new Date().toISOString()`. -/
def updateHypothesisStatus (st : ResearchDataStore) (hypothesisId : List Char)
    (newStatus : HypStatus) (now : List Char) : ResearchDataStore :=
  match mapGet st.hypotheses hypothesisId with
  | none => st
  | some hyp =>
    let hyp2 := { hyp with status := newStatus, updatedAt := now }
    let graph2 :=
      match hyp2.knowledgeGraphNodeId with
      | some nid =>
        match mapGet st.knowledgeGraph nid with
        | some node => mapSet st.knowledgeGraph nid
            { node with metadata := { node.metadata with confidence := some hyp2.confidence } }
        | none => st.knowledgeGraph
      | none => st.knowledgeGraph
    { st with hypotheses := mapSet st.hypotheses hypothesisId hyp2
              knowledgeGraph := graph2 }

/-- One supporting evidence record returned by
`validateHypothesisAgainstSources`. -/
structure SupportEv where
  paperId : List Char
  evidenceText : List Char
  relevance : ℚ
deriving DecidableEq

/-- Result record of `validateHypothesisAgainstSources`; `confidence = none`
models the JS value NaN (which arises from the division 0 / 0 when the
paper list is empty, and then propagates through `Math.min`). -/
structure ValidationResult where
  isValid : Bool
  confidence : Option ℚ
  supportingEvidence : List SupportEv
  warnings : List (List Char)
deriving DecidableEq

/-- Per-paper body of the `sourcePapers.forEach` loop of
`validateHypothesisAgainstSources` (researchDataStore.ts lines 205-231),
acting on the accumulator (totalRelevance, supportingEvidence, warnings). -/
def validateStep (hypothesisWords : List (List Char))
    (acc : ℚ × List SupportEv × List (List Char)) (paper : SourcePaper) :
    ℚ × List SupportEv × List (List Char) :=
  let paperText := toLower paper.extractedText
  let foundConcepts := hypothesisWords.filter
    (fun word => decide (3 < word.length) && subOf word paperText)
  if 0 < foundConcepts.length then
    let relevance : ℚ := (foundConcepts.length : ℚ) / (hypothesisWords.length : ℚ)
    let newEv := paper.relevantSections.filterMap (fun s =>
      if subOf (foundConcepts.headD []) (toLower s) then
        some { paperId := paper.id, evidenceText := s, relevance := relevance }
      else none)
    (acc.1 + relevance, acc.2.1 ++ newEv, acc.2.2)
  else
    (acc.1, acc.2.1,
      acc.2.2 ++ [chars "No supporting evidence found in paper: " ++ paper.title])

/-- `ResearchDataStore.validateHypothesisAgainstSources`
(researchDataStore.ts lines 189-242). -/
def validateHypothesisAgainstSources (hypothesisText : List Char)
    (sourcePapers : List SourcePaper) : ValidationResult :=
  let hypothesisWords := splitWs (toLower hypothesisText)
  let res := sourcePapers.foldl (validateStep hypothesisWords) (0, [], [])
  let avgRelevance : Option ℚ :=
    if sourcePapers.length = 0 then none
    else some (res.1 / (sourcePapers.length : ℚ))
  { isValid := match avgRelevance with
      | none => false
      | some a => decide (3 / 10 < a)
    confidence := avgRelevance.map (fun a => min (a * 100) 95)
    supportingEvidence := res.2.1
    warnings := res.2.2 }

/-! ## RAGService relevance scorer (src/src/lib/ragService.ts lines 403-440) -/

/-- Query tokens of `calculateAdvancedRelevance`: lowercase words of
length > 2. -/
def queryWordsOf (query : List Char) : List (List Char) :=
  (splitWs (toLower query)).filter (fun w => decide (2 < w.length))

/-- Body of the `queryWords.forEach` loop (ragService.ts lines 414-431):
2 per exact token match, 0.5 per substring-but-not-equal token match, and
a bonus of 3 whenever the whole lowercased query occurs in the text (this
test sits inside the loop, so it fires once per query word). -/
def relevanceStep (query text : List Char) (textWords : List (List Char))
    (score : ℚ) (queryWord : List Char) : ℚ :=
  let exactWordMatches := (textWords.filter (fun w => w = queryWord)).length
  let s1 := score + (exactWordMatches : ℚ) * 2
  let partialWordMatches :=
    (textWords.filter (fun w => subOf queryWord w && ¬ (w = queryWord))).length
  let s2 := s1 + (partialWordMatches : ℚ) * (1 / 2)
  if subOf (toLower query) (toLower text) then s2 + 3 else s2

/-- The raw score accumulated by `calculateAdvancedRelevance` before
normalization (the variable `score` at ragService.ts line 433). -/
def rawScore (query text : List Char) : ℚ :=
  (queryWordsOf query).foldl (relevanceStep query text (splitWs (toLower text))) 0

/-- `RAGService.calculateAdvancedRelevance` (ragService.ts lines 403-440). -/
def calculateAdvancedRelevance (query text : List Char) : ℚ :=
  let queryWords := queryWordsOf query
  let textWords := splitWs (toLower text)
  let textLength := textWords.length
  if queryWords.length = 0 ∨ textLength = 0 then 0
  else
    let normalizedScore :=
      rawScore query text / ((textLength : ℚ) * (1 / 100) + (queryWords.length : ℚ))
    let lengthPenalty := min 1 (1000 / (textLength : ℚ))
    min 1 (normalizedScore * lengthPenalty)

/-! ## RAGService text preprocessing (ragService.ts lines 48-61)

Each JS `String.replace` pass with a global regex is embedded as a scanner
that walks the string left to right, rewriting the leftmost match and
continuing after its replacement, exactly as the JS regex engine does. -/

/-- Worker for whitespace-run collapsing: `inRun` records that the current
whitespace run has already emitted its single space. -/
def collapseWsGo : Bool → List Char → List Char
  | _, [] => []
  | inRun, c :: t =>
    if isWs c then
      if inRun then collapseWsGo true t else ' ' :: collapseWsGo true t
    else c :: collapseWsGo false t

/-- Collapse every maximal whitespace run to a single space:
`.replace(/\s+/g, ' ')`. -/
def collapseWs (s : List Char) : List Char := collapseWsGo false s

/-- JS `String.prototype.trim`. -/
def trimChars (s : List Char) : List Char :=
  ((s.dropWhile isWs).reverse.dropWhile isWs).reverse

/-- Insert a space between a lowercase letter and the uppercase letter
immediately following it: `.replace(/([a-z])([A-Z])/g, '$1 $2')`.  Both
letters are consumed by the match, so the uppercase letter does not start
a new match. -/
def camelSplit : List Char → List Char
  | [] => []
  | [c] => [c]
  | a :: b :: t =>
    if isLowerB a && isUpperB b then a :: ' ' :: b :: camelSplit t
    else a :: camelSplit (b :: t)

/-- Worker for `.replace(/\b(\d+)([a-zA-Z])/g, '$1 $2')`.  `prev` records
whether the previously scanned character was a word character (`\b` holds
at a digit exactly when it was not); `run` is `some ds` while a candidate
digit run is being collected (digits so far, reversed).  The greedy `\d+`
must take the whole maximal run, since giving back digits would force
`[a-zA-Z]` to match a digit; a run not followed by a letter is emitted
unchanged, and no digit inside it can start a new match (its predecessor
is a digit, so `\b` fails there). -/
def dlsGo : Bool → Option (List Char) → List Char → List Char
  | _, none, [] => []
  | _, some run, [] => run.reverse
  | prev, none, c :: t =>
    if isDigitB c && !prev then dlsGo true (some [c]) t
    else c :: dlsGo (isWordChar c) none t
  | _, some run, c :: t =>
    if isDigitB c then dlsGo true (some (c :: run)) t
    else if isAlphaB c then run.reverse ++ ' ' :: c :: dlsGo true none t
    else run.reverse ++ c :: dlsGo (isWordChar c) none t

/-- Insert a space between a digit run at a word boundary and the letter
following it: `.replace(/\b(\d+)([a-zA-Z])/g, '$1 $2')` (at the start of
the string `\b` holds before a digit). -/
def digitLetterSplit (s : List Char) : List Char := dlsGo false none s

/-- Scanner state for `.replace(/([a-zA-Z])(\d+)/g, '$1 $2')`: was the
previous character a letter scanned in normal mode (`letter`), a digit of
an already-split run (`digits`), or anything else (`norm`)? -/
inductive LdsState where
  | norm | letter | digits

/-- Worker for `.replace(/([a-zA-Z])(\d+)/g, '$1 $2')`: after a letter, a
following digit run is split off with a space; the character after the run
is scanned normally (a letter there can start a new match). -/
def ldsGo : LdsState → List Char → List Char
  | _, [] => []
  | LdsState.norm, c :: t =>
    if isAlphaB c then c :: ldsGo LdsState.letter t
    else c :: ldsGo LdsState.norm t
  | LdsState.letter, c :: t =>
    if isDigitB c then ' ' :: c :: ldsGo LdsState.digits t
    else if isAlphaB c then c :: ldsGo LdsState.letter t
    else c :: ldsGo LdsState.norm t
  | LdsState.digits, c :: t =>
    if isDigitB c then c :: ldsGo LdsState.digits t
    else if isAlphaB c then c :: ldsGo LdsState.letter t
    else c :: ldsGo LdsState.norm t

/-- Insert a space between a letter and the digit run following it:
`.replace(/([a-zA-Z])(\d+)/g, '$1 $2')` (no boundary assertion). -/
def letterDigitSplit (s : List Char) : List Char := ldsGo LdsState.norm s

/-- The punctuation class `[.,;:!?]` of the punctuation-normalizing pass. -/
def isPunctB (c : Char) : Bool :=
  c = '.' || c = ',' || c = ';' || c = ':' || c = '!' || c = '?'

/-- Worker for `.replace(/\s*([.,;:!?])\s*/g, '$1 ')`.  `drop = true` while
consuming the trailing `\s*` of a match (those characters are part of the
match and vanish); otherwise `pend` holds the current whitespace run
(reversed), which belongs to a match if punctuation follows (leading
`\s*`) and is emitted verbatim if not — no position inside such a run can
match, each leaving a whitespace character where the punctuation class
must match. -/
def punctGo : Bool → List Char → List Char → List Char
  | _, pend, [] => pend.reverse
  | drop, pend, c :: t =>
    if isWs c then
      if drop then punctGo true pend t
      else punctGo false (c :: pend) t
    else if isPunctB c then c :: ' ' :: punctGo true [] t
    else pend.reverse ++ c :: punctGo false [] t

/-- Normalize spacing around punctuation:
`.replace(/\s*([.,;:!?])\s*/g, '$1 ')`. -/
def punctSpace (s : List Char) : List Char := punctGo false [] s

/-- Worker for `.replace(/\s{2,}/g, ' ')`.  `skip = true` while consuming
the rest of an already-collapsed run; `pend` holds a single pending
whitespace character that is emitted unchanged unless a second whitespace
character follows it. -/
def collapse2Go : Bool → Option Char → List Char → List Char
  | _, pend, [] =>
    (match pend with
     | some w => [w]
     | none => [])
  | skip, pend, c :: t =>
    if isWs c then
      match pend with
      | some _ => ' ' :: collapse2Go true none t
      | none => if skip then collapse2Go true none t else collapse2Go false (some c) t
    else
      (match pend with
       | some w => [w]
       | none => []) ++ c :: collapse2Go false none t

/-- Collapse whitespace runs of length at least two to a single space:
`.replace(/\s{2,}/g, ' ')` (a single whitespace character is kept as is). -/
def collapse2 (s : List Char) : List Char := collapse2Go false none s

/-- `RAGService.preprocessTextForSearch` (ragService.ts lines 48-61): the six
replacement passes in source order, then `trim`. -/
def preprocessTextForSearch (text : List Char) : List Char :=
  trimChars (collapse2 (punctSpace (letterDigitSplit
    (digitLetterSplit (camelSplit (collapseWs text))))))

/-! ## RAGService.extractRelevantSections (ragService.ts lines 64-102) -/

/-- Decimal digits of a natural number, for the generated section labels. -/
def natChars (n : Nat) : List Char := (toString n).toList

/-- The alternatives of the section-header group
`(Abstract|Introduction|Methods?|Results?|Discussion|Conclusion|References?)`,
flattened in the order the JS regex engine tries them (alternation left to
right, each greedy `s?` tried long first), lowercased for the `i` flag. -/
def headerCandidates : List (List Char) :=
  [chars "abstract", chars "introduction", chars "methods", chars "method",
   chars "results", chars "result", chars "discussion", chars "conclusion",
   chars "references", chars "reference"]

/-- The `\b` assertion after the header word: next character is absent or a
non-word character. -/
def wordBoundaryAfter : List Char → Bool
  | [] => true
  | c :: _ => !isWordChar c

/-- Try the header alternatives in order at the start of `s`; on success
return the matched slice of `s` (original casing, the capture `$1`). -/
def tryHeaderIn : List (List Char) → List Char → Option (List Char)
  | [], _ => none
  | w :: ws, s =>
    if decide (toLower (s.take w.length) = w) && wordBoundaryAfter (s.drop w.length) then
      some (s.take w.length)
    else tryHeaderIn ws s

/-- Worker for JS `text.split(/\n\s*(…headers…)\b/gi)`: split on the
delimiter matches, splicing the captured header between the surrounding
fragments (JS `split` with a capturing group).  `seg` is the current
fragment, reversed.  The fuel (initially the text length) dominates the
number of scan steps, each of which consumes at least one character; the
fuel-exhaustion branch is unreachable from the wrapper below. -/
def headerSplitGo : Nat → List Char → List Char → List (List Char)
  | _, [], seg => [seg.reverse]
  | 0, _ :: _, seg => [seg.reverse]
  | fuel + 1, c :: t, seg =>
    if c = '\n' then
      match tryHeaderIn headerCandidates (t.drop (t.takeWhile isWs).length) with
      | some cap =>
          seg.reverse :: cap ::
            headerSplitGo fuel ((t.drop (t.takeWhile isWs).length).drop cap.length) []
      | none => headerSplitGo fuel t (c :: seg)
    else headerSplitGo fuel t (c :: seg)

/-- JS `text.split(/\n\s*(…headers…)\b/gi)`. -/
def headerSplit (text : List Char) : List (List Char) :=
  headerSplitGo text.length text []

/-- Successive pairs `(parts[i], parts[i+1])` for `i = 1, 3, 5, …` of the
split result, as consumed by the structured-section loop. -/
def pairUp : List (List Char) → List (List Char × List Char)
  | a :: b :: t => (a, b) :: pairUp t
  | _ => []

/-- Index of the last `\n` inside a whitespace run, if any: the amount the
greedy `\s*` of `/\n\s*\n/` keeps after backtracking to the final `\n`. -/
def lastNlIdx (run : List Char) : Option Nat :=
  ((run.enum.filter (fun p => p.2 = '\n')).map (fun p => p.1)).getLast?

/-- Worker for JS `text.split(/\n\s*\n/)` (the paragraph fallback; no
capturing group, so the delimiters are dropped).  Fuel as in
`headerSplitGo`. -/
def paraSplitGo : Nat → List Char → List Char → List (List Char)
  | _, [], seg => [seg.reverse]
  | 0, _ :: _, seg => [seg.reverse]
  | fuel + 1, c :: t, seg =>
    if c = '\n' then
      match lastNlIdx (t.takeWhile isWs) with
      | some j => seg.reverse :: paraSplitGo fuel (t.drop (j + 1)) []
      | none => paraSplitGo fuel t (c :: seg)
    else paraSplitGo fuel t (c :: seg)

/-- JS `text.split(/\n\s*\n/)`. -/
def paraSplit (text : List Char) : List (List Char) :=
  paraSplitGo text.length text []

/-- JS line-terminator characters, which `.` does not match. -/
def isLineTerm (c : Char) : Bool :=
  c = '\n' || c = '\r' || c = Char.ofNat 8232 || c = Char.ofNat 8233

/-- Worker for JS `text.match(/.{1,1000}/g) || []`: all maximal runs of up
to 1000 non-line-terminator characters, in order.  Fuel as in
`headerSplitGo`. -/
def chunkScanGo : Nat → List Char → List (List Char)
  | _, [] => []
  | 0, _ :: _ => []
  | fuel + 1, c :: t =>
    if isLineTerm c then chunkScanGo fuel t
    else (c :: (t.takeWhile (fun x => !isLineTerm x)).take 999) ::
      chunkScanGo fuel (t.drop ((t.takeWhile (fun x => !isLineTerm x)).take 999).length)

/-- JS `text.match(/.{1,1000}/g) || []`. -/
def chunkScan (text : List Char) : List (List Char) :=
  chunkScanGo text.length text

/-- The `sections` array of `extractRelevantSections` after the header-based
branch (when the split produced parts) or the paragraph branch (otherwise),
before the final emptiness check (ragService.ts lines 65-91). -/
def sectionsPhase1 (text : List Char) : List (List Char) :=
  let parts := headerSplit text
  if 1 < parts.length then
    (pairUp parts.tail).filterMap (fun hc =>
      if !hc.2.isEmpty && decide (100 < (trimChars hc.2).length) then
        some (hc.1 ++ chars ": " ++ (trimChars hc.2).take 1000)
      else none)
  else
    let paragraphs := (paraSplit text).filter
      (fun p => decide (100 < (trimChars p).length))
    (paragraphs.take 10).enum.filterMap (fun ip =>
      if decide (100 < (trimChars ip.2).length) then
        some (chars "Section " ++ natChars (ip.1 + 1) ++ chars ": " ++
          (trimChars ip.2).take 1000)
      else none)

/-- The fixed-chunk fallback sections (ragService.ts lines 94-99). -/
def chunkSections (text : List Char) : List (List Char) :=
  ((chunkScan text).take 5).enum.map (fun ic =>
    chars "Content Part " ++ natChars (ic.1 + 1) ++ chars ": " ++ trimChars ic.2)

/-- `RAGService.extractRelevantSections` (ragService.ts lines 64-102):
header-based split, else paragraph split, and the fixed-chunk fallback
whenever the `sections` array is still empty. -/
def extractRelevantSections (text : List Char) : List (List Char) :=
  if (sectionsPhase1 text).isEmpty then chunkSections text
  else sectionsPhase1 text

/-! ## PDF text extraction (src/unnamed/part_000, action download_pdf)

The edge function decodes the downloaded buffer with `TextDecoder('latin1')`
(bytes map one-to-one onto the code points 0-255), runs extraction methods
1-3 over the decoded text, and falls back to method 4 (byte-wise ASCII
scan) when the combined method 1-3 output is shorter than 100 characters. -/

/-- Latin-1 decoding of a byte buffer (part_000 line 439). -/
def decodeLatin1 (buffer : List Nat) : List Char :=
  buffer.map (fun b => Char.ofNat (b % 256))

/-- Worker for a global lazy block regex such as `/stream[\s\S]*?endstream/g`
or `/BT[\s\S]*?ET/g`: at each position try the start marker, lazily complete
with the closest end marker, and continue after the match; otherwise advance
one character.  The fuel (initially the text length) dominates the number of
scan steps, each of which consumes at least one character. -/
def lazyBlocksGo (startM endM : List Char) : Nat → List Char → List (List Char)
  | 0, _ => []
  | _, [] => []
  | fuel + 1, c :: t =>
    if prefixOf startM (c :: t) then
      match firstIdx endM ((c :: t).drop startM.length) with
      | some k =>
          (startM ++ ((c :: t).drop startM.length).take k ++ endM) ::
            lazyBlocksGo startM endM fuel
              (((c :: t).drop startM.length).drop (k + endM.length))
      | none => lazyBlocksGo startM endM fuel t
    else lazyBlocksGo startM endM fuel t

/-- All matches of a global lazy block regex over `s`. -/
def lazyBlocks (startM endM s : List Char) : List (List Char) :=
  lazyBlocksGo startM endM s.length s

/-- `match.replace(/^MARKER\s*/, '')`. -/
def stripPrefixMarker (marker s : List Char) : List Char :=
  if prefixOf marker s then (s.drop marker.length).dropWhile isWs else s

/-- `match.replace(/\s*MARKER$/, '')`. -/
def stripSuffixMarker (marker s : List Char) : List Char :=
  if prefixOf marker.reverse s.reverse then
    ((s.reverse.drop marker.length).dropWhile isWs).reverse
  else s

/-- Method 1 readability pass (part_000 lines 448-450):
`.replace(/[^\x20-\x7E\n\r\t]/g, ' ').replace(/\s+/g, ' ').trim()`. -/
def toReadable (s : List Char) : List Char :=
  trimChars (collapseWs (s.map (fun c =>
    if (32 ≤ c.toNat && c.toNat ≤ 126) || c = '\n' || c = '\r' || c = '\t' then c
    else ' ')))

/-- All `stream…endstream` matches of method 1. -/
def streamMatchesOf (pdfText : List Char) : List (List Char) :=
  lazyBlocks (chars "stream") (chars "endstream") pdfText

/-- Method 1 accepted output: readable block bodies longer than 20 characters
(part_000 lines 443-456). -/
def streamAccepted (pdfText : List Char) : List (List Char) :=
  (streamMatchesOf pdfText).filterMap (fun m =>
    let readable := toReadable (stripSuffixMarker (chars "endstream")
      (stripPrefixMarker (chars "stream") m))
    if decide (20 < readable.length) then some readable else none)

/-- Worker for `/\([^)]+\)\s*Tj/g` (method 2), collecting the parenthesized
capture of each match (the text the code re-extracts with
`textObj.match(/\(([^)]+)\)/)`). -/
def tjScanGo : Nat → List Char → List (List Char)
  | 0, _ => []
  | _, [] => []
  | fuel + 1, c :: t =>
    if c = '(' then
      if (t.takeWhile (fun x => !(x = ')'))).isEmpty then tjScanGo fuel t
      else
        match t.drop (t.takeWhile (fun x => !(x = ')'))).length with
        | ')' :: rest =>
          if prefixOf (chars "Tj") (rest.dropWhile isWs) then
            t.takeWhile (fun x => !(x = ')')) ::
              tjScanGo fuel ((rest.dropWhile isWs).drop 2)
          else tjScanGo fuel t
        | _ => tjScanGo fuel t
    else tjScanGo fuel t

/-- All method 2 matches over the decoded text (part_000 line 459). -/
def tjMatchesOf (pdfText : List Char) : List (List Char) :=
  tjScanGo pdfText.length pdfText

/-- Method 2 accepted output: captures longer than 2 characters
(part_000 lines 461-466). -/
def tjAccepted (pdfText : List Char) : List (List Char) :=
  (tjMatchesOf pdfText).filter (fun text => decide (2 < text.length))

/-- Worker for `/\([^)]+\)/g` inside a BT…ET block (method 3), returning the
full matches including the parentheses. -/
def parenScanGo : Nat → List Char → List (List Char)
  | 0, _ => []
  | _, [] => []
  | fuel + 1, c :: t =>
    if c = '(' then
      if (t.takeWhile (fun x => !(x = ')'))).isEmpty then parenScanGo fuel t
      else
        match t.drop (t.takeWhile (fun x => !(x = ')'))).length with
        | ')' :: rest =>
            ('(' :: t.takeWhile (fun x => !(x = ')')) ++ [')']) ::
              parenScanGo fuel rest
        | _ => parenScanGo fuel t
    else parenScanGo fuel t

/-- All `BT…ET` matches of method 3 (part_000 line 470). -/
def btMatchesOf (pdfText : List Char) : List (List Char) :=
  lazyBlocks (chars "BT") (chars "ET") pdfText

/-- Flatten a list of word lists. -/
def concatLists : List (List (List Char)) → List (List Char)
  | [] => []
  | x :: xs => x ++ concatLists xs

/-- Method 3 accepted output: for each block, the parenthesized words whose
bracket-free trimmed form is longer than 1 character and contains a letter
(part_000 lines 470-485). -/
def btAccepted (pdfText : List Char) : List (List Char) :=
  concatLists ((btMatchesOf pdfText).map (fun block =>
    let content := stripSuffixMarker (chars "ET") (stripPrefixMarker (chars "BT") block)
    (parenScanGo content.length content).filterMap (fun word =>
      let cleanWord := trimChars (word.filter (fun x => !(x = '(') && !(x = ')')))
      if decide (1 < cleanWord.length) && cleanWord.any isAlphaB then some cleanWord
      else none)))

/-- Concatenate accepted fragments, each followed by the separating space the
code appends (`extractedText += fragment + ' '`). -/
def concatSp (l : List (List Char)) : List Char :=
  match l with
  | [] => []
  | x :: xs => x ++ ' ' :: concatSp xs

/-- The combined method 1-3 output: the value of `extractedText` after the
three structural methods have run (part_000 lines 443-485). -/
def phase13Text (pdfText : List Char) : List Char :=
  concatSp (streamAccepted pdfText) ++ concatSp (tjAccepted pdfText) ++
    concatSp (btAccepted pdfText)

/-- The value of `extractionMethods` after methods 1-3: a tag is pushed as
soon as the method regex has at least one match, whether or not any match
passes the acceptance filter (part_000 lines 444-445, 460-461, 471-472). -/
def phase13Methods (pdfText : List Char) : List (List Char) :=
  (if (streamMatchesOf pdfText).isEmpty then [] else [chars "stream_extraction"]) ++
  (if (tjMatchesOf pdfText).isEmpty then [] else [chars "text_objects"]) ++
  (if (btMatchesOf pdfText).isEmpty then [] else [chars "text_blocks"])

/-- One step of the method 4 byte loop (part_000 lines 491-498): emit a
printable byte as a character; emit a single space for a line-break byte
when output already exists. -/
def fbStep (acc : List Char) (b : Nat) : List Char :=
  if 32 ≤ b && b ≤ 126 then acc ++ [Char.ofNat b]
  else if (b = 10 || b = 13) && !acc.isEmpty then acc ++ [' ']
  else acc

/-- Method 4, ASCII fallback, exactly as coded: the loop runs
`for (let i = 0; i < uint8Array.length - 1; i++)`, so it visits every byte
except the last one. -/
def asciiFallback (buffer : List Nat) : List Char :=
  (buffer.take (buffer.length - 1)).foldl fbStep []

/-- Modelled from the spec (section 4.2, strategy 4), for comparison with
the code: a byte-by-byte scan of the ENTIRE buffer with the same emission
rule. -/
def asciiFallbackSpec (buffer : List Nat) : List Char :=
  buffer.foldl fbStep []

/-- The extraction state after methods 1-4 (part_000 lines 441-500): the
pair (extractedText, extractionMethods).  When the combined method 1-3
output is shorter than 100 characters the fallback replaces it and the tag
`ascii_fallback` is pushed. -/
def rawExtract (buffer : List Nat) : List Char × List (List Char) :=
  let pdfText := decodeLatin1 buffer
  let extractedText := phase13Text pdfText
  let extractionMethods := phase13Methods pdfText
  if extractedText.length < 100 then
    (asciiFallback buffer, extractionMethods ++ [chars "ascii_fallback"])
  else (extractedText, extractionMethods)

/-! ## Cleaning, sentence segmentation and the download_pdf response
(part_000 lines 502-562) -/

/-- One global replacement of a two-character sequence by a space, e.g.
`.replace(/\\n/g, ' ')` (a literal backslash followed by a letter). -/
def replacePair (a b : Char) : List Char → List Char
  | [] => []
  | [c] => [c]
  | c :: d :: t =>
    if c = a && d = b then ' ' :: replacePair a b t
    else c :: replacePair a b (d :: t)

/-- Keep test of the cleaning filter `[^\w\s.,;:!?()\-"']` (part_000 line
507): word characters, whitespace, and the listed punctuation survive,
everything else becomes a space. -/
def isAllowedKeep (c : Char) : Bool :=
  isWordChar c || isWs c || isPunctB c || c = '(' || c = ')' || c = '-' ||
  c = '"' || c = Char.ofNat 39

/-- `.replace(/[^\w\s.,;:!?()\-"']/g, ' ')`. -/
def filterAllowed (s : List Char) : List Char :=
  s.map (fun c => if isAllowedKeep c then c else ' ')

/-- The cleaning pipeline applied to the extracted text (part_000 lines
502-509), in source order: literal `\n`, `\r`, `\t` sequences to spaces,
whitespace-run collapse, character filter (with no re-collapse after it),
then trim. -/
def cleanText (s : List Char) : List Char :=
  trimChars (filterAllowed (collapseWs
    (replacePair '\\' 't' (replacePair '\\' 'r' (replacePair '\\' 'n' s)))))

/-- Sentence punctuation class `[.!?]` of the sentence split. -/
def isSentPunct (c : Char) : Bool := c = '.' || c = '!' || c = '?'

/-- JS `str.split(/[.!?]+/)` (like `splitWs` with the sentence punctuation
class). -/
def splitSent (s : List Char) : List (List Char) := splitGo isSentPunct s false []

/-- The kept sentences of the cleaned text (part_000 lines 512-516):
trimmed fragments longer than 10 characters containing a letter, each with
a period re-appended. -/
def sentencesOf (buffer : List Nat) : List (List Char) :=
  (((splitSent (cleanText (rawExtract buffer).1)).map trimChars).filter
    (fun s => decide (10 < s.length) && s.any isAlphaB)).map (fun s => s ++ ['.'])

/-- `cleanedText` (part_000 line 518): the kept sentences joined by single
spaces. -/
def cleanedTextOf (buffer : List Nat) : List Char :=
  joinSep [' '] (sentencesOf buffer)

/-- The greedy 800-character sentence grouping used when the cleaned text is
longer than 500 characters (part_000 lines 522-537). -/
def sectionFold (sentences : List (List Char)) : List (List Char) :=
  let res := sentences.foldl
    (fun (acc : List (List Char) × List Char) sentence =>
      if 800 < acc.2.length + sentence.length then
        ((if (trimChars acc.2).isEmpty then acc.1 else acc.1 ++ [trimChars acc.2]),
          sentence ++ [' '])
      else (acc.1, acc.2 ++ sentence ++ [' ']))
    ([], [])
  if (trimChars res.2).isEmpty then res.1 else res.1 ++ [trimChars res.2]

/-- The fixed marker appended when the cleaned text is truncated
(part_000 line 543). -/
def truncationMarker : List Char := chars "... [Content truncated]"

/-- The deterministic placeholder substituted when extraction produced fewer
than 50 characters (part_000 line 547), naming the source file id. -/
def placeholderText (file_id : List Char) : List Char :=
  chars "PDF document content extracted from file " ++ file_id ++
  chars ". The document may contain complex formatting or embedded images that require alternative processing methods for optimal text extraction."

/-- The parts of the download_pdf JSON response that carry extraction
behaviour (part_000 lines 554-562). -/
structure ExtractionResponse where
  content : List Char
  sections : List (List Char)
  extractionMethods : List (List Char)
deriving DecidableEq

/-- The value of `finalText` after the truncation step and before the
under-50-character check (part_000 lines 541-544). -/
def finalTextPreOf (buffer : List Nat) : List Char :=
  if 8000 < (cleanedTextOf buffer).length then
    (cleanedTextOf buffer).take 8000 ++ truncationMarker
  else cleanedTextOf buffer

/-- The download_pdf extraction endpoint (part_000 lines 434-562) as a
function of the downloaded byte buffer and the request file id: extraction
methods 1-4, cleaning, sentence segmentation, sectioning, the 8000-character
truncation and the under-50-character placeholder substitution. -/
def download_pdf (buffer : List Nat) (file_id : List Char) : ExtractionResponse :=
  let sections :=
    if 500 < (cleanedTextOf buffer).length then sectionFold (sentencesOf buffer)
    else [cleanedTextOf buffer]
  if (finalTextPreOf buffer).length < 50 then
    { content := placeholderText file_id
      sections := (sections ++ [placeholderText file_id]).take 5
      extractionMethods := (rawExtract buffer).2 }
  else
    { content := finalTextPreOf buffer
      sections := sections.take 5
      extractionMethods := (rawExtract buffer).2 }

/-! ## Definitions supporting the claim statements -/

/-- The number of hypothesis words longer than 3 characters that occur as
substrings of the given paper text (the `foundConcepts.length` of
researchDataStore.ts lines 210-212). -/
def countMatched (hypothesisText : List Char) (paper : SourcePaper) : Nat :=
  ((splitWs (toLower hypothesisText)).filter (fun word =>
    decide (3 < word.length) && subOf word (toLower paper.extractedText))).length

/-- Total number of exact token matches over all query words (as a
rational, the unit in which the score accumulates). -/
def exactMatchTotal (query text : List Char) : ℚ :=
  ((queryWordsOf query).map (fun qw =>
    (((splitWs (toLower text)).filter (fun w => w = qw)).length : ℚ))).sum

/-- Total number of substring-but-not-equal token matches over all query
words (as a rational). -/
def partialMatchTotal (query text : List Char) : ℚ :=
  ((queryWordsOf query).map (fun qw =>
    (((splitWs (toLower text)).filter
      (fun w => subOf qw w && ¬ (w = qw))).length : ℚ))).sum

/-- Modelled from the claim wording, for comparison with the code: the raw
relevance sum with the phrase bonus of exactly 3 added once. -/
def claimedRawScore (query text : List Char) : ℚ :=
  2 * exactMatchTotal query text +
  (1 / 2) * partialMatchTotal query text +
  (if subOf (toLower query) (toLower text) then 3 else 0)

/-- The full normalization pipeline the claim quantifies over, in data-flow
order: the extraction-side cleaning (part_000 lines 502-509: escape and
whitespace collapsing, character filtering) followed by the ingestion-side
preprocessing (ragService.ts lines 48-61: boundary space insertion). -/
def normalizePipeline (s : List Char) : List Char :=
  preprocessTextForSearch (cleanText s)

/-- The whitespace-collapse-and-trim stage shared by both code sites. -/
def wsNormalize (s : List Char) : List Char := trimChars (collapseWs s)

/-- A string in whitespace-collapsed form: every whitespace character is a
plain space, and no two whitespace characters are adjacent. -/
def IsCollapsed (s : List Char) : Prop :=
  (∀ c ∈ s, isWs c = true → c = ' ') ∧
  List.Chain' (fun a b => isWs a = true → isWs b = false) s

/-- The store operations claim C5 quantifies over. -/
inductive StoreOp where
  | addPaperOp (p : SourcePaper)
  | addHypothesisOp (h : HypothesisInput)
  | updateStatusOp (id : List Char) (newStatus : HypStatus) (now : List Char)

/-- Apply one store operation. -/
def applyOp (st : ResearchDataStore) : StoreOp → ResearchDataStore
  | StoreOp.addPaperOp p => addPaper st p
  | StoreOp.addHypothesisOp h => (addHypothesis st h).2
  | StoreOp.updateStatusOp i s n => updateHypothesisStatus st i s n

/-- Apply a sequence of store operations. -/
def applyOps (st : ResearchDataStore) (ops : List StoreOp) : ResearchDataStore :=
  ops.foldl applyOp st

/-- Does the operation overwrite the knowledge graph node with the given id
with a freshly built node?  `addPaper` overwrites the node `paper_<id>`;
a successful `addHypothesis` overwrites the node `hypothesis_<id>`;
`updateHypothesisStatus` overwrites no node. -/
def opOverwritesNode : StoreOp → List Char → Prop
  | StoreOp.addPaperOp p, nid => nid = chars "paper_" ++ p.id
  | StoreOp.addHypothesisOp h, nid => nid = chars "hypothesis_" ++ h.id
  | StoreOp.updateStatusOp _ _ _, _ => False

/-! ## Concrete inputs used by counterexamples and witnesses -/

/-- A small paper whose text contains the word `aaaa`. -/
def paperX : SourcePaper :=
  { id := chars "p1", title := chars "P", authors := [], url := []
    extractedText := chars "xxaaaaxx"
    relevantSections := [chars "sec with aaaa inside plus"]
    citationStyle := [] }

/-- A small paper with empty text. -/
def paperY : SourcePaper :=
  { id := chars "p2", title := chars "Q", authors := [], url := []
    extractedText := [], relevantSections := [], citationStyle := [] }

/-- A hypothesis referencing `paperX` only. -/
def hypX : HypothesisInput :=
  { id := chars "h1", title := chars "H", description := chars "D"
    status := HypStatus.draft, confidence := 50, sourcePapers := [paperX]
    extractedEvidence := [], tags := [], createdAt := [], updatedAt := [] }

/-- The store holding `paperX`. -/
def storeX1 : ResearchDataStore := addPaper emptyStore paperX

/-- The store after additionally registering `hypX`. -/
def storeX2 : ResearchDataStore := (addHypothesis storeX1 hypX).2

/-- The knowledge graph node `addPaper` creates for `paperX`. -/
def paperNodeX : KnowledgeGraphNode :=
  { id := chars "paper_p1"
    label := chars "P"
    type := NodeType.paper
    sourceType := NodeSourceType.paper_metadata
    importance := 8 / 10
    metadata := { description := some (chars "Research paper: P")
                  sourcePapers := some [chars "p1"] }
    connections := [] }

/-- A buffer whose stream block passes the method 1 filter (combined output
length 121 ≥ 100) while its text object `(ab) Tj` matches method 2 but is
rejected by the length filter, so `text_objects` contributes no text. -/
def bufC2 : List Nat :=
  (chars "stream " ++ List.replicate 120 'a' ++ chars " endstream (ab) Tj").map
    Char.toNat

/-! # Theorems -/

/-! ## Map lemmas -/

/-- `mapGet` after `mapSet` at the same key. -/
theorem mapGet_mapSet_self {κ ν : Type} [DecidableEq κ]
    (m : List (κ × ν)) (k : κ) (v : ν) : mapGet (mapSet m k v) k = some v := by
  induction m with
  | nil => simp [mapSet, mapGet]
  | cons kv rest ih =>
    obtain ⟨k1, v1⟩ := kv
    by_cases h : k1 = k
    · simp [mapSet, mapGet, h]
    · simp [mapSet, mapGet, h, ih]

/-- `mapGet` after `mapSet` at a different key. -/
theorem mapGet_mapSet_ne {κ ν : Type} [DecidableEq κ]
    (m : List (κ × ν)) (k k2 : κ) (v : ν) (h : k2 ≠ k) :
    mapGet (mapSet m k v) k2 = mapGet m k2 := by
  induction m with
  | nil => simp [mapSet, mapGet, Ne.symm h]
  | cons kv rest ih =>
    obtain ⟨k1, v1⟩ := kv
    by_cases h1 : k1 = k
    · subst h1
      simp [mapSet, mapGet, Ne.symm h]
    · by_cases h2 : k1 = k2
      · simp [mapSet, mapGet, h1, h2, h]
      · simp [mapSet, mapGet, h1, h2, ih]

/-! ## C10 -/

/-- C10: `validateHypothesisAgainstSources` called with an empty source
paper list terminates without throwing and returns `isValid = false`, empty
supporting evidence and empty warnings; its confidence is the unguarded
JS quotient 0 / 0 = NaN (modelled as `none`), hence not a number in the
range 0-100. -/
theorem C10_validate_empty_papers (hypothesisText : List Char) :
    validateHypothesisAgainstSources hypothesisText [] =
      { isValid := false, confidence := none
        supportingEvidence := [], warnings := [] } := rfl

/-! ## C1 -/

/-- C1: when a hypothesis references a paper id absent from the store,
`addHypothesis` fails with a missing-source error and the store — all four
maps, hence also every node's connections list — is unchanged. -/
theorem C1_addHypothesis_missing_source (st : ResearchDataStore)
    (h : HypothesisInput) (p : SourcePaper) (hp : p ∈ h.sourcePapers)
    (hmiss : mapHas st.papers p.id = false) :
    (∃ msg, (addHypothesis st h).1 = Except.error msg) ∧
    (addHypothesis st h).2 = st := by
  have hpf : p ∈ h.sourcePapers.filter (fun q => ¬ mapHas st.papers q.id) :=
    List.mem_filter.mpr ⟨hp, by simp [hmiss]⟩
  have hlen : 0 < (h.sourcePapers.filter (fun q => ¬ mapHas st.papers q.id)).length :=
    List.length_pos.mpr (List.ne_nil_of_mem hpf)
  simp only [addHypothesis]
  rw [if_pos hlen]
  exact ⟨⟨_, rfl⟩, rfl⟩

/-- Witness for C1: a concrete hypothesis whose source paper was never
added to the empty store. -/
theorem C1_witness :
    (∃ msg, (addHypothesis emptyStore hypX).1 = Except.error msg) ∧
    (addHypothesis emptyStore hypX).2 = emptyStore :=
  C1_addHypothesis_missing_source emptyStore hypX paperX (by decide) (by decide)

/-! ## C4 -/

/-- Decomposition of the `queryWords.forEach` accumulation. -/
theorem relevanceStep_foldl (query text : List Char) (ws : List (List Char))
    (init : ℚ) :
    ws.foldl (relevanceStep query text (splitWs (toLower text))) init =
      init +
      2 * ((ws.map (fun qw =>
        (((splitWs (toLower text)).filter (fun w => w = qw)).length : ℚ))).sum) +
      (1 / 2) * ((ws.map (fun qw =>
        (((splitWs (toLower text)).filter
          (fun w => subOf qw w && ¬ (w = qw))).length : ℚ))).sum) +
      (if subOf (toLower query) (toLower text) then 3 * (ws.length : ℚ) else 0) := by
  induction ws generalizing init with
  | nil => simp
  | cons a l ih =>
    simp only [List.foldl_cons, List.map_cons, List.sum_cons, List.length_cons, ih]
    simp only [relevanceStep]
    by_cases hb : subOf (toLower query) (toLower text)
    · simp only [hb, if_true]
      push_cast
      ring
    · simp only [hb, Bool.false_eq_true, if_false]
      try push_cast
      try ring

/-- C4 counterexample: for the query and text `"aaaa bbbb"`, the phrase
occurs, the claim formula (single +3 phrase bonus) predicts 7, but the code
accumulates 10, because the bonus is added once per query word. -/
theorem C4_counterexample :
    subOf (toLower (chars "aaaa bbbb")) (toLower (chars "aaaa bbbb")) = true ∧
    claimedRawScore (chars "aaaa bbbb") (chars "aaaa bbbb") = 7 ∧
    rawScore (chars "aaaa bbbb") (chars "aaaa bbbb") = 10 := by
  have hsub : subOf (toLower (chars "aaaa bbbb")) (toLower (chars "aaaa bbbb")) = true := by
    decide
  have hq : queryWordsOf (chars "aaaa bbbb") = [chars "aaaa", chars "bbbb"] := by decide
  have he1 : ((splitWs (toLower (chars "aaaa bbbb"))).filter
      (fun w => w = chars "aaaa")).length = 1 := by decide
  have he2 : ((splitWs (toLower (chars "aaaa bbbb"))).filter
      (fun w => w = chars "bbbb")).length = 1 := by decide
  have hp1 : ((splitWs (toLower (chars "aaaa bbbb"))).filter
      (fun w => subOf (chars "aaaa") w && ¬ (w = chars "aaaa"))).length = 0 := by decide
  have hp2 : ((splitWs (toLower (chars "aaaa bbbb"))).filter
      (fun w => subOf (chars "bbbb") w && ¬ (w = chars "bbbb"))).length = 0 := by decide
  have hE : exactMatchTotal (chars "aaaa bbbb") (chars "aaaa bbbb") = 2 := by
    rw [exactMatchTotal, hq]
    simp only [List.map_cons, List.map_nil, List.sum_cons, List.sum_nil, he1, he2]
    norm_num
  have hP : partialMatchTotal (chars "aaaa bbbb") (chars "aaaa bbbb") = 0 := by
    rw [partialMatchTotal, hq]
    simp only [List.map_cons, List.map_nil, List.sum_cons, List.sum_nil, hp1, hp2]
    norm_num
  refine ⟨hsub, ?_, ?_⟩
  · rw [claimedRawScore, hE, hP, if_pos hsub]
    norm_num
  · rw [rawScore, relevanceStep_foldl, hq]
    simp only [List.map_cons, List.map_nil, List.sum_cons, List.sum_nil,
      List.length_cons, List.length_nil, he1, he2, hp1, hp2, if_pos hsub]
    norm_num

/-- C4 amended: the raw relevance sum is 2 per exact token match plus 0.5
per substring-but-not-equal token match, plus — when the whole lowercased
query occurs in the text — a phrase bonus of 3 PER QUERY WORD (the bonus
test sits inside the per-word loop), and no phrase bonus otherwise. -/
theorem C4_amended_raw_score (query text : List Char) :
    rawScore query text =
      2 * exactMatchTotal query text +
      (1 / 2) * partialMatchTotal query text +
      (if subOf (toLower query) (toLower text) then
        3 * ((queryWordsOf query).length : ℚ) else 0) := by
  have key := relevanceStep_foldl query text (queryWordsOf query) 0
  rw [rawScore, key, exactMatchTotal, partialMatchTotal]
  ring_nf

/-! ## C7 -/

/-- C7 counterexample: a one-byte buffer whose single byte is printable
yields an empty fallback output — the loop bound `length - 1` skips the
last byte, so the scan is not over the entire buffer. -/
theorem C7_counterexample :
    asciiFallback [65] = [] ∧ (32 ≤ 65 ∧ 65 ≤ 126) ∧
    Char.ofNat 65 ∉ asciiFallback [65] := by decide

/-- The fallback step only appends. -/
theorem fbStep_append (acc : List Char) (b : Nat) :
    ∃ u, fbStep acc b = acc ++ u := by
  unfold fbStep
  split
  · exact ⟨[Char.ofNat b], rfl⟩
  · split
    · exact ⟨[' '], rfl⟩
    · exact ⟨[], (List.append_nil acc).symm⟩

/-- The fallback fold only appends. -/
theorem fb_foldl_append (l : List Nat) (acc : List Char) :
    ∃ u, l.foldl fbStep acc = acc ++ u := by
  induction l generalizing acc with
  | nil => exact ⟨[], (List.append_nil acc).symm⟩
  | cons b t ih =>
    obtain ⟨u2, hu2⟩ := ih (fbStep acc b)
    obtain ⟨u1, hu1⟩ := fbStep_append acc b
    rw [List.foldl_cons, hu2, hu1, List.append_assoc]
    exact ⟨u1 ++ u2, rfl⟩

/-- Every printable byte scanned by the fallback fold lands in the output. -/
theorem fb_foldl_mem (l : List Nat) (acc : List Char) (b : Nat) (hb : b ∈ l)
    (h1 : 32 ≤ b) (h2 : b ≤ 126) : Char.ofNat b ∈ l.foldl fbStep acc := by
  induction l generalizing acc with
  | nil => cases hb
  | cons x t ih =>
    rw [List.foldl_cons]
    rcases List.mem_cons.mp hb with hx | hx
    · subst hx
      have hstep : fbStep acc b = acc ++ [Char.ofNat b] := by
        unfold fbStep
        rw [if_pos (by simp [h1, h2])]
      obtain ⟨u, hu⟩ := fb_foldl_append t (fbStep acc b)
      rw [hu, hstep]
      simp
    · exact ih (fbStep acc x) hx

/-- C7 amended: the ASCII fallback scans all bytes EXCEPT the final one —
it equals the spec-modelled full scan applied to the buffer without its
last byte — and every printable byte among the scanned ones does appear in
the output (a printable final byte does not, unless it also occurs
earlier). -/
theorem C7_amended_scan_drops_last (buffer : List Nat) :
    asciiFallback buffer = asciiFallbackSpec buffer.dropLast ∧
    (∀ b ∈ buffer.dropLast, 32 ≤ b → b ≤ 126 →
      Char.ofNat b ∈ asciiFallback buffer) := by
  have hdl : buffer.dropLast = buffer.take (buffer.length - 1) :=
    List.dropLast_eq_take buffer
  constructor
  · rw [asciiFallback, asciiFallbackSpec, hdl]
  · intro b hb h1 h2
    rw [asciiFallback]
    rw [hdl] at hb
    exact fb_foldl_mem _ [] b hb h1 h2

/-- Witness for C7 at the concrete buffer `[65, 66]`. -/
theorem C7_witness :
    asciiFallback [65, 66] = asciiFallbackSpec ([65, 66].dropLast) ∧
    Char.ofNat 65 ∈ asciiFallback [65, 66] :=
  ⟨(C7_amended_scan_drops_last [65, 66]).1,
   (C7_amended_scan_drops_last [65, 66]).2 65 (by decide) (by decide) (by decide)⟩

/-! ## C2 -/

set_option maxRecDepth 100000 in
/-- C2 counterexample: on `bufC2` the combined method 1-3 output is at
least 100 characters long, method 2 contributed no text (its only match
`(ab) Tj` fails the length filter), yet `text_objects` is recorded in
`extractionMethods` — so `methodsUsed` does not record exactly the
strategies that contributed text. -/
theorem C2_counterexample :
    (rawExtract bufC2).2 = [chars "stream_extraction", chars "text_objects"] ∧
    tjAccepted (decodeLatin1 bufC2) = [] ∧
    ¬ (phase13Text (decodeLatin1 bufC2)).length < 100 := by decide

/-- Membership in the method tag list after methods 1-3: a tag is present
exactly when its regex found at least one match. -/
theorem mem_phase13Methods (pdfText tag : List Char) :
    tag ∈ phase13Methods pdfText ↔
      ((tag = chars "stream_extraction" ∧ ¬ streamMatchesOf pdfText = []) ∨
       (tag = chars "text_objects" ∧ ¬ tjMatchesOf pdfText = []) ∨
       (tag = chars "text_blocks" ∧ ¬ btMatchesOf pdfText = [])) := by
  unfold phase13Methods
  by_cases h1 : (streamMatchesOf pdfText).isEmpty <;>
    by_cases h2 : (tjMatchesOf pdfText).isEmpty <;>
      by_cases h3 : (btMatchesOf pdfText).isEmpty <;>
        simp_all [List.isEmpty_iff]

/-- C2 amended: when the combined method 1-3 output is under 100
characters, the extracted text is exactly the ASCII fallback output and
`ascii_fallback` is recorded; otherwise the extracted text is the combined
method 1-3 output, `ascii_fallback` is absent, and a strategy tag is
recorded exactly when that strategy's pattern found at least one match
(whether or not any match passed the acceptance filter and contributed
text). -/
theorem C2_amended_decision_rule (buffer : List Nat) :
    ((phase13Text (decodeLatin1 buffer)).length < 100 →
      (rawExtract buffer).1 = asciiFallback buffer ∧
      chars "ascii_fallback" ∈ (rawExtract buffer).2) ∧
    (¬ (phase13Text (decodeLatin1 buffer)).length < 100 →
      (rawExtract buffer).1 = phase13Text (decodeLatin1 buffer) ∧
      chars "ascii_fallback" ∉ (rawExtract buffer).2 ∧
      (∀ tag, tag ∈ (rawExtract buffer).2 ↔
        ((tag = chars "stream_extraction" ∧
          ¬ streamMatchesOf (decodeLatin1 buffer) = []) ∨
         (tag = chars "text_objects" ∧
          ¬ tjMatchesOf (decodeLatin1 buffer) = []) ∨
         (tag = chars "text_blocks" ∧
          ¬ btMatchesOf (decodeLatin1 buffer) = [])))) := by
  constructor
  · intro hlt
    constructor
    · simp only [rawExtract]
      rw [if_pos hlt]
    · simp only [rawExtract]
      rw [if_pos hlt]
      exact List.mem_append_right _ (List.mem_singleton.mpr rfl)
  · intro hge
    refine ⟨?_, ?_, ?_⟩
    · simp only [rawExtract]
      rw [if_neg hge]
    · simp only [rawExtract]
      rw [if_neg hge]
      intro hmem
      rcases (mem_phase13Methods _ _).mp hmem with ⟨he, _⟩ | ⟨he, _⟩ | ⟨he, _⟩ <;>
        exact absurd he (by decide)
    · intro tag
      simp only [rawExtract]
      rw [if_neg hge]
      exact mem_phase13Methods _ tag

/-- Witness for C2 at the empty buffer (combined output length 0 < 100). -/
theorem C2_witness :
    (rawExtract []).1 = asciiFallback [] ∧
    chars "ascii_fallback" ∈ (rawExtract []).2 :=
  (C2_amended_decision_rule []).1 (by decide)

/-! ## C9 -/

/-- C9 counterexample: the one-character text `"\n"` is non-empty, yet the
sectioning operation returns the empty sequence — the chunk fallback regex
`.{1,1000}` matches no line terminator. -/
theorem C9_counterexample :
    extractRelevantSections [Char.ofNat 10] = [] ∧
    ([Char.ofNat 10] : List Char) ≠ [] := by decide

/-- The chunk scanner finds a chunk whenever some character is not a line
terminator. -/
theorem chunkScanGo_ne_nil (fuel : Nat) (text : List Char) (c : Char)
    (hc : c ∈ text) (ht : isLineTerm c = false) (hf : text.length ≤ fuel) :
    chunkScanGo fuel text ≠ [] := by
  induction fuel generalizing text with
  | zero =>
    have : text = [] := List.length_eq_zero.mp (Nat.le_zero.mp hf)
    subst this
    cases hc
  | succ fuel ih =>
    cases text with
    | nil => cases hc
    | cons x t =>
      unfold chunkScanGo
      by_cases hx : isLineTerm x
      · rw [if_pos hx]
        rcases List.mem_cons.mp hc with he | he
        · rw [← he] at hx
          rw [hx] at ht
          cases ht
        · exact ih t he (by simpa using Nat.le_of_succ_le_succ (by simpa using hf))
      · rw [if_neg hx]
        simp

/-- C9 amended: the sectioning operation returns a non-empty sequence for
every input containing at least one character that is not a JS line
terminator; an input consisting solely of line terminators (such as
`"\n"`) yields the empty sequence instead. -/
theorem C9_amended_nonempty (text : List Char) (c : Char) (hc : c ∈ text)
    (ht : isLineTerm c = false) : extractRelevantSections text ≠ [] := by
  unfold extractRelevantSections
  by_cases hs : (sectionsPhase1 text).isEmpty
  · rw [if_pos hs]
    unfold chunkSections
    intro hcon
    have h1 : chunkScan text ≠ [] :=
      chunkScanGo_ne_nil text.length text c hc ht (Nat.le_refl _)
    have h2 := congrArg List.length hcon
    simp only [List.length_map, List.enum_length, List.length_take,
      List.length_nil] at h2
    have h3 : (chunkScan text).length = 0 := by omega
    exact h1 (List.length_eq_zero.mp h3)
  · rw [if_neg hs]
    intro hcon
    exact hs (by rw [hcon]; rfl)

/-- Witness for C9 at the concrete text `"ab"`. -/
theorem C9_witness : extractRelevantSections (chars "ab") ≠ [] :=
  C9_amended_nonempty (chars "ab") 'a' (by decide) (by decide)

/-! ## C5 -/

/-- C5 counterexample: after `addPaper paperX; addHypothesis hypX`, the
paper node's connections list is `[hypothesis_h1]`; re-running
`addPaper paperX` overwrites that node with a fresh one whose connections
list is empty, so a previously present connection id is gone. -/
theorem C5_counterexample :
    (mapGet storeX2.knowledgeGraph (chars "paper_p1")).map
      KnowledgeGraphNode.connections = some [chars "hypothesis_h1"] ∧
    (mapGet (addPaper storeX2 paperX).knowledgeGraph (chars "paper_p1")).map
      KnowledgeGraphNode.connections = some [] := by decide

/-- `pushConn` preserves every node and only appends to connections. -/
theorem pushConn_preserves (g : List (List Char × KnowledgeGraphNode))
    (target cid nid : List Char) (n : KnowledgeGraphNode)
    (hn : mapGet g nid = some n) :
    ∃ n2, mapGet (pushConn g target cid) nid = some n2 ∧
      ∀ c ∈ n.connections, c ∈ n2.connections := by
  unfold pushConn
  cases hg : mapGet g target with
  | none => exact ⟨n, hn, fun c hc => hc⟩
  | some node =>
    by_cases hid : nid = target
    · subst hid
      rw [hn] at hg
      cases hg
      refine ⟨_, mapGet_mapSet_self _ _ _, fun c hc => ?_⟩
      exact List.mem_append_left _ hc
    · rw [mapGet_mapSet_ne _ _ _ _ hid]
      exact ⟨n, hn, fun c hc => hc⟩

/-- One `addHypothesisStep` preserves every node and only appends to
connection lists. -/
theorem addHypothesisStep_preserves (h : HypothesisInput) (nodeId : List Char)
    (st : ResearchDataStore) (paper : SourcePaper) (nid : List Char)
    (n : KnowledgeGraphNode) (hn : mapGet st.knowledgeGraph nid = some n) :
    ∃ n2, mapGet (addHypothesisStep h nodeId st paper).knowledgeGraph nid = some n2 ∧
      ∀ c ∈ n.connections, c ∈ n2.connections := by
  obtain ⟨n1, hn1, hs1⟩ := pushConn_preserves st.knowledgeGraph nodeId
    (chars "paper_" ++ paper.id) nid n hn
  obtain ⟨n2, hn2, hs2⟩ := pushConn_preserves
    (pushConn st.knowledgeGraph nodeId (chars "paper_" ++ paper.id))
    (chars "paper_" ++ paper.id) nodeId nid n1 hn1
  exact ⟨n2, hn2, fun c hc => hs2 c (hs1 c hc)⟩

/-- The `sourcePapers.forEach` fold of `addHypothesis` preserves every node
and only appends to connection lists. -/
theorem addHypothesis_foldl_preserves (h : HypothesisInput) (nodeId : List Char)
    (papers : List SourcePaper) (st : ResearchDataStore) (nid : List Char)
    (n : KnowledgeGraphNode) (hn : mapGet st.knowledgeGraph nid = some n) :
    ∃ n2, mapGet (papers.foldl (addHypothesisStep h nodeId) st).knowledgeGraph nid
        = some n2 ∧
      ∀ c ∈ n.connections, c ∈ n2.connections := by
  induction papers generalizing st n with
  | nil => exact ⟨n, hn, fun c hc => hc⟩
  | cons p ps ih =>
    obtain ⟨n1, hn1, hs1⟩ := addHypothesisStep_preserves h nodeId st p nid n hn
    obtain ⟨n2, hn2, hs2⟩ := ih (addHypothesisStep h nodeId st p) n1 hn1
    exact ⟨n2, hn2, fun c hc => hs2 c (hs1 c hc)⟩

/-- The hypothesis node `addHypothesis` builds (researchDataStore.ts lines
116-128), named for the proofs below. -/
def hypothesisNodeOf (h : HypothesisInput) : KnowledgeGraphNode :=
  { id := chars "hypothesis_" ++ h.id
    label := h.title
    type := NodeType.hypothesis
    sourceType := NodeSourceType.pdf_extracted
    importance := h.confidence / 100
    metadata := { sourcePapers := some (h.sourcePapers.map (fun p => p.id))
                  confidence := some h.confidence
                  description := some h.description }
    connections := [] }

/-- The store `addHypothesis` hands to its connection loop in the
no-missing-papers branch. -/
theorem addHypothesis_ok_store (st : ResearchDataStore) (h : HypothesisInput)
    (hmiss : ¬ 0 <
      (h.sourcePapers.filter (fun q => ¬ mapHas st.papers q.id)).length) :
    (addHypothesis st h).2 =
      h.sourcePapers.foldl (addHypothesisStep h (chars "hypothesis_" ++ h.id))
        { st with
          hypotheses := mapSet st.hypotheses h.id
            { id := h.id, title := h.title, description := h.description
              status := h.status, confidence := h.confidence
              sourcePapers := h.sourcePapers
              extractedEvidence := h.extractedEvidence
              tags := h.tags, createdAt := h.createdAt, updatedAt := h.updatedAt
              knowledgeGraphNodeId := some (chars "hypothesis_" ++ h.id) }
          knowledgeGraph := mapSet st.knowledgeGraph
            (chars "hypothesis_" ++ h.id) (hypothesisNodeOf h) } := by
  simp only [addHypothesis]
  rw [if_neg hmiss]
  rfl

/-- One store operation never deletes a node, and preserves the members of
a node's connections list unless it overwrites that very node. -/
theorem applyOp_preserves (st : ResearchDataStore) (op : StoreOp)
    (nid : List Char) (n : KnowledgeGraphNode)
    (hn : mapGet st.knowledgeGraph nid = some n) :
    ∃ n2, mapGet (applyOp st op).knowledgeGraph nid = some n2 ∧
      (¬ opOverwritesNode op nid → ∀ c ∈ n.connections, c ∈ n2.connections) := by
  cases op with
  | addPaperOp p =>
    by_cases hid : nid = chars "paper_" ++ p.id
    · subst hid
      have hself := mapGet_mapSet_self st.knowledgeGraph (chars "paper_" ++ p.id)
        { id := chars "paper_" ++ p.id
          label := p.title
          type := NodeType.paper
          sourceType := NodeSourceType.paper_metadata
          importance := 8 / 10
          metadata := { description := some (chars "Research paper: " ++ p.title)
                        sourcePapers := some [p.id] }
          connections := [] }
      exact ⟨_, hself, fun hov => absurd rfl hov⟩
    · refine ⟨n, ?_, fun _ c hc => hc⟩
      show mapGet (mapSet st.knowledgeGraph (chars "paper_" ++ p.id) _) nid = some n
      rw [mapGet_mapSet_ne _ _ _ _ hid]
      exact hn
  | addHypothesisOp h =>
    by_cases hmiss :
        0 < (h.sourcePapers.filter (fun q => ¬ mapHas st.papers q.id)).length
    · have herr : (addHypothesis st h).2 = st := by
        simp only [addHypothesis]
        rw [if_pos hmiss]
      show ∃ n2, mapGet (addHypothesis st h).2.knowledgeGraph nid = some n2 ∧ _
      rw [herr]
      exact ⟨n, hn, fun _ c hc => hc⟩
    · show ∃ n2, mapGet (addHypothesis st h).2.knowledgeGraph nid = some n2 ∧ _
      rw [addHypothesis_ok_store st h hmiss]
      by_cases hid : nid = chars "hypothesis_" ++ h.id
      · obtain ⟨n2, hn2, _⟩ := addHypothesis_foldl_preserves h
          (chars "hypothesis_" ++ h.id) h.sourcePapers
          { st with
            hypotheses := mapSet st.hypotheses h.id
              { id := h.id, title := h.title, description := h.description
                status := h.status, confidence := h.confidence
                sourcePapers := h.sourcePapers
                extractedEvidence := h.extractedEvidence
                tags := h.tags, createdAt := h.createdAt, updatedAt := h.updatedAt
                knowledgeGraphNodeId := some (chars "hypothesis_" ++ h.id) }
            knowledgeGraph := mapSet st.knowledgeGraph
              (chars "hypothesis_" ++ h.id) (hypothesisNodeOf h) }
          nid (hypothesisNodeOf h)
          (by rw [hid]; exact mapGet_mapSet_self _ _ _)
        exact ⟨n2, hn2, fun hov => absurd hid hov⟩
      · obtain ⟨n2, hn2, hs2⟩ := addHypothesis_foldl_preserves h
          (chars "hypothesis_" ++ h.id) h.sourcePapers
          { st with
            hypotheses := mapSet st.hypotheses h.id
              { id := h.id, title := h.title, description := h.description
                status := h.status, confidence := h.confidence
                sourcePapers := h.sourcePapers
                extractedEvidence := h.extractedEvidence
                tags := h.tags, createdAt := h.createdAt, updatedAt := h.updatedAt
                knowledgeGraphNodeId := some (chars "hypothesis_" ++ h.id) }
            knowledgeGraph := mapSet st.knowledgeGraph
              (chars "hypothesis_" ++ h.id) (hypothesisNodeOf h) }
          nid n
          (by show mapGet (mapSet _ _ _) nid = some n
              rw [mapGet_mapSet_ne _ _ _ _ hid]
              exact hn)
        exact ⟨n2, hn2, fun _ => hs2⟩
  | updateStatusOp i s now =>
    show ∃ n2, mapGet (updateHypothesisStatus st i s now).knowledgeGraph nid
        = some n2 ∧ _
    unfold updateHypothesisStatus
    cases hh : mapGet st.hypotheses i with
    | none => exact ⟨n, hn, fun _ c hc => hc⟩
    | some hyp =>
      obtain ⟨id1, t1, d1, s1, c1, sp1, ee1, tg1, ca1, ua1, kg1⟩ := hyp
      dsimp only
      cases kg1 with
      | none => exact ⟨n, hn, fun _ c hc => hc⟩
      | some gnid =>
        dsimp only
        cases hg : mapGet st.knowledgeGraph gnid with
        | none => exact ⟨n, hn, fun _ c hc => hc⟩
        | some node =>
          by_cases hid : nid = gnid
          · subst hid
            rw [hn] at hg
            cases hg
            exact ⟨_, mapGet_mapSet_self _ _ _, fun _ c hc => hc⟩
          · rw [mapGet_mapSet_ne _ _ _ _ hid]
            exact ⟨n, hn, fun _ c hc => hc⟩

/-- C5 amended: nodes are never deleted — after any sequence of store
operations every existing node id still resolves to a node — and a node's
connections only grow under operations that do not re-create that node;
but `addPaper` (or a successful `addHypothesis`) with an id whose node
already exists overwrites that node with an empty connections list, so
growth holds only for sequences that never overwrite the node in
question. -/
theorem C5_amended_graph_growth (ops : List StoreOp) (st : ResearchDataStore)
    (nid : List Char) (n : KnowledgeGraphNode)
    (hn : mapGet st.knowledgeGraph nid = some n) :
    ∃ n2, mapGet (applyOps st ops).knowledgeGraph nid = some n2 ∧
      ((∀ op ∈ ops, ¬ opOverwritesNode op nid) →
        ∀ c ∈ n.connections, c ∈ n2.connections) := by
  induction ops generalizing st n with
  | nil => exact ⟨n, hn, fun _ c hc => hc⟩
  | cons op rest ih =>
    obtain ⟨n1, hn1, hs1⟩ := applyOp_preserves st op nid n hn
    obtain ⟨n2, hn2, hs2⟩ := ih (applyOp st op) n1 hn1
    refine ⟨n2, hn2, fun hov c hc => ?_⟩
    refine hs2 (fun o ho => hov o (List.mem_cons_of_mem _ ho)) c ?_
    exact hs1 (hov op (List.mem_cons_self _ _)) c hc

/-- Witness for C5: the node created for `paperX` survives the
registration of `hypX` with its connections intact. -/
theorem C5_witness :
    ∃ n2, mapGet (applyOps storeX1 [StoreOp.addHypothesisOp hypX]).knowledgeGraph
        (chars "paper_p1") = some n2 ∧
      ((∀ op ∈ [StoreOp.addHypothesisOp hypX],
          ¬ opOverwritesNode op (chars "paper_p1")) →
        ∀ c ∈ paperNodeX.connections, c ∈ n2.connections) :=
  C5_amended_graph_growth [StoreOp.addHypothesisOp hypX] storeX1
    (chars "paper_p1") paperNodeX rfl

/-! ## C3 -/

/-- The accumulated `totalRelevance` of the per-paper fold equals the sum
of the per-paper relevances (papers with no matched word contribute 0). -/
theorem validateStep_fst (hw : List (List Char)) (papers : List SourcePaper)
    (init : ℚ × List SupportEv × List (List Char)) :
    (papers.foldl (validateStep hw) init).1 =
      init.1 + (papers.map (fun p =>
        ((hw.filter (fun word => decide (3 < word.length) &&
          subOf word (toLower p.extractedText))).length : ℚ) /
        (hw.length : ℚ))).sum := by
  induction papers generalizing init with
  | nil => simp
  | cons p ps ih =>
    simp only [List.foldl_cons, List.map_cons, List.sum_cons, ih]
    simp only [validateStep]
    by_cases h0 : 0 < (hw.filter (fun word => decide (3 < word.length) &&
        subOf word (toLower p.extractedText))).length
    · rw [if_pos h0]
      dsimp only
      ring
    · rw [if_neg h0]
      dsimp only
      have hz : (hw.filter (fun word => decide (3 < word.length) &&
          subOf word (toLower p.extractedText))).length = 0 := by omega
      rw [hz]
      push_cast
      ring

/-- Warnings already accumulated survive the rest of the fold. -/
theorem validateStep_warn_mono (hw : List (List Char))
    (papers : List SourcePaper) (init : ℚ × List SupportEv × List (List Char))
    (w : List Char) (hw2 : w ∈ init.2.2) :
    w ∈ (papers.foldl (validateStep hw) init).2.2 := by
  induction papers generalizing init with
  | nil => exact hw2
  | cons p ps ih =>
    rw [List.foldl_cons]
    refine ih _ ?_
    simp only [validateStep]
    by_cases h0 : 0 < (hw.filter (fun word => decide (3 < word.length) &&
        subOf word (toLower p.extractedText))).length
    · rw [if_pos h0]
      exact hw2
    · rw [if_neg h0]
      exact List.mem_append_left _ hw2

/-- Every paper with no matched word contributes its warning. -/
theorem validateStep_warn_mem (hw : List (List Char))
    (papers : List SourcePaper) (init : ℚ × List SupportEv × List (List Char))
    (p : SourcePaper) (hp : p ∈ papers)
    (h0 : (hw.filter (fun word => decide (3 < word.length) &&
      subOf word (toLower p.extractedText))).length = 0) :
    (chars "No supporting evidence found in paper: " ++ p.title) ∈
      (papers.foldl (validateStep hw) init).2.2 := by
  induction papers generalizing init with
  | nil => cases hp
  | cons q ps ih =>
    rw [List.foldl_cons]
    rcases List.mem_cons.mp hp with he | he
    · subst he
      refine validateStep_warn_mono hw ps _ _ ?_
      simp only [validateStep]
      rw [if_neg (by omega)]
      exact List.mem_append_right _ (List.mem_singleton.mpr rfl)
    · exact ih (validateStep hw init q) he

/-- C3: for a non-empty paper list, `validateHypothesisAgainstSources`
returns `confidence = min(avgRelevance * 100, 95)` and
`isValid = (avgRelevance > 0.3)`, where each paper's relevance is the
count of hypothesis words longer than 3 characters occurring as substrings
of that paper's text divided by the total hypothesis word count and
`avgRelevance` is their average; every paper with zero matched words
contributes a warning naming that paper. -/
theorem C3_validate_formula (t : List Char) (papers : List SourcePaper)
    (hne : papers ≠ []) :
    (validateHypothesisAgainstSources t papers).confidence =
      some (min (((papers.map (fun p => (countMatched t p : ℚ) /
        ((splitWs (toLower t)).length : ℚ))).sum / (papers.length : ℚ)) * 100)
        95) ∧
    (validateHypothesisAgainstSources t papers).isValid =
      decide (3 / 10 < (papers.map (fun p => (countMatched t p : ℚ) /
        ((splitWs (toLower t)).length : ℚ))).sum / (papers.length : ℚ)) ∧
    ∀ p ∈ papers, countMatched t p = 0 →
      (chars "No supporting evidence found in paper: " ++ p.title) ∈
        (validateHypothesisAgainstSources t papers).warnings := by
  have hlen : ¬ papers.length = 0 := by
    intro h
    exact hne (List.length_eq_zero.mp h)
  have hfst := validateStep_fst (splitWs (toLower t)) papers (0, [], [])
  refine ⟨?_, ?_, ?_⟩
  · simp only [validateHypothesisAgainstSources]
    rw [if_neg hlen]
    simp only [Option.map_some, Option.map]
    rw [hfst]
    simp only [countMatched]
    norm_num
  · simp only [validateHypothesisAgainstSources]
    rw [if_neg hlen]
    simp only []
    rw [hfst]
    simp only [countMatched]
    norm_num
  · intro p hp h0
    simp only [validateHypothesisAgainstSources]
    exact validateStep_warn_mem (splitWs (toLower t)) papers (0, [], []) p hp
      (by simpa [countMatched] using h0)

set_option maxRecDepth 100000 in
/-- Witness for C3 at a concrete hypothesis text and two concrete papers
(one matching `aaaa`, one matching nothing). -/
theorem C3_witness :
    (validateHypothesisAgainstSources (chars "aaaa bbbb")
        [paperX, paperY]).confidence =
      some (min (((([paperX, paperY] : List SourcePaper).map
        (fun p => (countMatched (chars "aaaa bbbb") p : ℚ) /
          ((splitWs (toLower (chars "aaaa bbbb"))).length : ℚ))).sum /
        (([paperX, paperY] : List SourcePaper).length : ℚ)) * 100) 95) ∧
    (chars "No supporting evidence found in paper: " ++ paperY.title) ∈
      (validateHypothesisAgainstSources (chars "aaaa bbbb")
        [paperX, paperY]).warnings :=
  ⟨(C3_validate_formula (chars "aaaa bbbb") [paperX, paperY] (by decide)).1,
   (C3_validate_formula (chars "aaaa bbbb") [paperX, paperY] (by decide)).2.2
     paperY (by decide) (by decide)⟩

/-! ## C8 -/

/-- C8: the final text of the extraction endpoint is never longer than
8000 characters plus the truncation marker (for any file id whose
placeholder text itself respects that bound); cleaned text longer than
8000 characters is truncated to 8000 characters with the marker appended;
cleaned text shorter than 50 characters is replaced by the deterministic
placeholder naming the file id. -/
theorem C8_final_text_bounds (buffer : List Nat) (file_id : List Char)
    (hfid : (placeholderText file_id).length ≤ 8000 + truncationMarker.length) :
    (download_pdf buffer file_id).content.length ≤
      8000 + truncationMarker.length ∧
    (8000 < (cleanedTextOf buffer).length →
      (download_pdf buffer file_id).content =
        (cleanedTextOf buffer).take 8000 ++ truncationMarker) ∧
    ((cleanedTextOf buffer).length < 50 →
      (download_pdf buffer file_id).content = placeholderText file_id) := by
  have hpre8 : 8000 < (cleanedTextOf buffer).length →
      (finalTextPreOf buffer).length = 8000 + truncationMarker.length := by
    intro h8
    unfold finalTextPreOf
    rw [if_pos h8]
    simp only [List.length_append, List.length_take]
    omega
  have hpreE : ¬ 8000 < (cleanedTextOf buffer).length →
      finalTextPreOf buffer = cleanedTextOf buffer := by
    intro h8
    unfold finalTextPreOf
    rw [if_neg h8]
  simp only [download_pdf]
  by_cases h50 : (finalTextPreOf buffer).length < 50
  · rw [if_pos h50]
    dsimp only
    refine ⟨hfid, ?_, fun _ => rfl⟩
    intro h8
    exfalso
    have := hpre8 h8
    have hm : 23 ≤ truncationMarker.length := by decide
    omega
  · rw [if_neg h50]
    dsimp only
    refine ⟨?_, ?_, ?_⟩
    · by_cases h8 : 8000 < (cleanedTextOf buffer).length
      · have := hpre8 h8
        omega
      · have := hpreE h8
        have hlen : (finalTextPreOf buffer).length =
            (cleanedTextOf buffer).length := by rw [this]
        omega
    · intro h8
      unfold finalTextPreOf
      rw [if_pos h8]
    · intro hlt
      exfalso
      have h8 : ¬ 8000 < (cleanedTextOf buffer).length := by omega
      have := hpreE h8
      have hlen : (finalTextPreOf buffer).length =
          (cleanedTextOf buffer).length := by rw [this]
      omega

set_option maxRecDepth 100000 in
/-- Witness for C8 at the empty buffer (degenerate extraction, placeholder
branch). -/
theorem C8_witness :
    (download_pdf [] (chars "FID")).content.length ≤
      8000 + truncationMarker.length ∧
    (download_pdf [] (chars "FID")).content = placeholderText (chars "FID") :=
  ⟨(C8_final_text_bounds [] (chars "FID") (by decide)).1,
   (C8_final_text_bounds [] (chars "FID") (by decide)).2.2 (by decide)⟩

/-! ## C6 -/

/-- C6 counterexample: the pipeline is not idempotent.  On `"a1a"` the
letter-digit rule inserts `"a 1a"`; on a second pass the digit run, now
preceded by a space, satisfies the `\b` of the digit-letter rule and is
split again to `"a 1 a"`. -/
theorem C6_counterexample :
    ¬ normalizePipeline (normalizePipeline (chars "a1a")) =
      normalizePipeline (chars "a1a") := by decide

/-- The head of the skipping collapse state is never whitespace. -/
theorem collapseWsGo_true_head (t : List Char) :
    ∀ y, (collapseWsGo true t).head? = some y → isWs y = false := by
  induction t with
  | nil =>
    intro y h
    cases h
  | cons c t ih =>
    intro y h
    by_cases hc : isWs c
    · simp only [collapseWsGo, hc, if_true] at h
      exact ih y h
    · simp only [collapseWsGo, hc, Bool.false_eq_true, if_false,
        List.head?_cons] at h
      cases h
      simpa using hc

/-- The collapse worker emits a collapsed string. -/
theorem isCollapsed_collapseWsGo (s : List Char) :
    ∀ b, IsCollapsed (collapseWsGo b s) := by
  induction s with
  | nil =>
    intro b
    exact ⟨fun c hc => absurd hc (List.not_mem_nil c), List.chain'_nil⟩
  | cons c t ih =>
    intro b
    by_cases hc : isWs c
    · cases b
      · simp only [collapseWsGo, hc, if_true, Bool.false_eq_true, if_false]
        constructor
        · intro x hx hwx
          rcases List.mem_cons.mp hx with he | he
          · exact he
          · exact (ih true).1 x he hwx
        · rw [List.chain'_cons']
          refine ⟨fun y hy => ?_, (ih true).2⟩
          intro _
          exact collapseWsGo_true_head t y hy
      · simp only [collapseWsGo, hc, if_true]
        exact ih true
    · have hcf : isWs c = false := by simpa using hc
      constructor
      · intro x hx hwx
        simp only [collapseWsGo, hcf, Bool.false_eq_true, if_false] at hx
        rcases List.mem_cons.mp hx with he | he
        · subst he
          rw [hcf] at hwx
          cases hwx
        · exact (ih false).1 x he hwx
      · simp only [collapseWsGo, hcf, Bool.false_eq_true, if_false]
        rw [List.chain'_cons']
        refine ⟨fun y hy => ?_, (ih false).2⟩
        intro hcw
        rw [hcf] at hcw
        cases hcw

/-- On an already-collapsed string the collapse worker is the identity. -/
theorem collapseWsGo_false_eq_self (u : List Char) (h : IsCollapsed u) :
    collapseWsGo false u = u := by
  induction u with
  | nil => rfl
  | cons c t ih =>
    have hmem := h.1
    have hch := h.2
    have ht : IsCollapsed t :=
      ⟨fun x hx hwx => hmem x (List.mem_cons_of_mem _ hx) hwx, hch.tail⟩
    by_cases hc : isWs c
    · have hsp : c = ' ' := hmem c (List.mem_cons_self c t) hc
      subst hsp
      simp only [collapseWsGo, hc, if_true, Bool.false_eq_true, if_false]
      cases t with
      | nil => rfl
      | cons d t2 =>
        have hd : isWs d = false := (List.chain'_cons'.mp hch).1 d rfl hc
        have h2 := ih ht
        simp only [collapseWsGo, hd, Bool.false_eq_true, if_false] at h2 ⊢
        rw [h2]
    · have hcf : isWs c = false := by simpa using hc
      have h2 := ih ht
      simp only [collapseWsGo, hcf, Bool.false_eq_true, if_false]
      rw [h2]

/-- `dropWhile` of whitespace is idempotent. -/
theorem dropWhile_ws_idem (l : List Char) :
    (l.dropWhile isWs).dropWhile isWs = l.dropWhile isWs := by
  induction l with
  | nil => rfl
  | cons c t ih =>
    by_cases h : isWs c
    · simp only [List.dropWhile_cons, h, if_true]
      exact ih
    · simp [List.dropWhile_cons, h]

/-- The head after `dropWhile isWs` is never whitespace. -/
theorem head_dropWhile_ws (l : List Char) :
    ∀ y, (l.dropWhile isWs).head? = some y → isWs y = false := by
  induction l with
  | nil =>
    intro y h
    cases h
  | cons c t ih =>
    intro y h
    by_cases hc : isWs c
    · simp only [List.dropWhile_cons, hc, if_true] at h
      exact ih y h
    · simp only [List.dropWhile_cons, hc, Bool.false_eq_true, if_false,
        List.head?_cons] at h
      cases h
      simpa using hc

/-- A string with a non-whitespace head survives `dropWhile isWs`. -/
theorem dropWhile_eq_self_of_head (v : List Char)
    (h : ∀ y, v.head? = some y → isWs y = false) : v.dropWhile isWs = v := by
  cases v with
  | nil => rfl
  | cons c t =>
    have := h c rfl
    simp [List.dropWhile_cons, this]

/-- `trimChars` is idempotent. -/
theorem trimChars_idem (u : List Char) :
    trimChars (trimChars u) = trimChars u := by
  unfold trimChars
  have hBrev : ((u.dropWhile isWs).reverse.dropWhile isWs).reverse <+:
      u.dropWhile isWs := by
    have h1 : (u.dropWhile isWs).reverse.dropWhile isWs <:+
        (u.dropWhile isWs).reverse := List.dropWhile_suffix isWs
    exact List.reverse_suffix.mp (by simpa using h1)
  have hhead : ∀ y,
      (((u.dropWhile isWs).reverse.dropWhile isWs).reverse).head? = some y →
      isWs y = false := by
    intro y hy
    have hA : (u.dropWhile isWs).head? = some y := by
      obtain ⟨t, ht⟩ := hBrev
      cases hprev : ((u.dropWhile isWs).reverse.dropWhile isWs).reverse with
      | nil =>
        rw [hprev] at hy
        cases hy
      | cons x xs =>
        rw [hprev] at hy ht
        simp only [List.head?_cons] at hy
        rw [← ht]
        simpa using hy
    exact head_dropWhile_ws u y hA
  rw [dropWhile_eq_self_of_head _ hhead, List.reverse_reverse,
    dropWhile_ws_idem]

/-- Collapsedness passes to suffixes. -/
theorem isCollapsed_suffix (l l2 : List Char) (h : IsCollapsed l2)
    (hs : l <:+ l2) : IsCollapsed l :=
  ⟨fun c hc hwc => h.1 c (hs.subset hc) hwc, h.2.suffix hs⟩

/-- Collapsedness passes to the reverse. -/
theorem isCollapsed_reverse (l : List Char) (h : IsCollapsed l) :
    IsCollapsed l.reverse := by
  constructor
  · intro c hc hwc
    exact h.1 c (List.mem_reverse.mp hc) hwc
  · rw [List.chain'_reverse]
    refine h.2.imp ?_
    intro a b hab hb
    cases hws : isWs a with
    | false => rfl
    | true =>
      rw [hab hws] at hb
      cases hb

/-- Collapsedness survives trimming. -/
theorem isCollapsed_trim (u : List Char) (h : IsCollapsed u) :
    IsCollapsed (trimChars u) := by
  unfold trimChars
  apply isCollapsed_reverse
  apply isCollapsed_suffix _ _
    (isCollapsed_reverse _ (isCollapsed_suffix _ _ h (List.dropWhile_suffix isWs)))
  exact List.dropWhile_suffix isWs

/-- C6 amended: the full normalization pipeline is not idempotent (see the
counterexample), but its whitespace-collapse-and-trim stage — the part
both code sites share — is: `wsNormalize (wsNormalize s) = wsNormalize s`
for every string. -/
theorem C6_amended_ws_idempotent (s : List Char) :
    wsNormalize (wsNormalize s) = wsNormalize s := by
  unfold wsNormalize
  have hA : IsCollapsed (collapseWs s) := isCollapsed_collapseWsGo s false
  have hB : IsCollapsed (trimChars (collapseWs s)) := isCollapsed_trim _ hA
  rw [show collapseWs (trimChars (collapseWs s)) = trimChars (collapseWs s) from
    collapseWsGo_false_eq_self _ hB]
  exact trimChars_idem _

end CureZa
